import Mathlib

/-!
# cg-mandel: the render / interaction engine of `Window`

A shallow embedding of `src/App/Window.h` and `src/App/Window.cpp`.

* The `float` members of the view state (`zoomLog_`, `modelCenterPos_`, the
  projection extents, colours) are elements of a linearly ordered field `K`
  and the arithmetic of the pointer, wheel and resize handlers on them is
  exact (`K = ℚ` runs, `K = ℝ` carries the real exponential).  `exp` is passed
  to the handlers that call it.
* The frame-rate sampler computes with local `float`s only. Its arithmetic is
  float32: every conversion and division is rounded to the nearest binary32
  value, halfway cases to even (`f32`), on rationals.
* `int` / `size_t` values are `Int` / `Nat`.
* A member function becomes a function from the object state (`Window K`) to
  the new state together with the list of outward calls it issued
  (`Effect K`): redraw requests, the `updateUI` signal, OpenGL / Qt calls. A
  function that can run into undefined behaviour returns an `Option`.
* `QElapsedTimer` is a simulated millisecond clock: the state keeps the clock
  reading at which the timer was last (re)started and the functions that read
  the timer receive the current reading `now`.
-/

namespace Mandel

/-! ## Data model -/

/-- Qt pixel position (`QPoint`): two `int` coordinates. -/
structure QPoint where
  x : Int
  y : Int
deriving DecidableEq, Repr

/-- Qt two-component float vector (`QVector2D`). -/
@[ext]
structure QVector2D (K : Type) where
  x : K
  y : K
deriving DecidableEq, Repr

/-- Qt three-component float vector (`QVector3D`). -/
structure QVector3D (K : Type) where
  x : K
  y : K
  z : K
deriving DecidableEq, Repr

instance {K : Type} [Add K] : Add (QVector2D K) := ⟨fun a b => ⟨a.x + b.x, a.y + b.y⟩⟩

instance {K : Type} [Sub K] : Sub (QVector2D K) := ⟨fun a b => ⟨a.x - b.x, a.y - b.y⟩⟩

/-- Qt `operator/(QVector2D, float)`: componentwise division by a scalar. -/
instance {K : Type} [Div K] : HDiv (QVector2D K) K (QVector2D K) :=
  ⟨fun a d => ⟨a.x / d, a.y / d⟩⟩

/-- The values `projection_` takes in this program: the default-constructed
identity matrix, or the result of `setToIdentity()` followed by one
`ortho(left, right, bottom, top, nearPlane, farPlane)`. -/
inductive QMatrix4x4 (K : Type) where
  | identity
  | ortho (left right bottom top nearPlane farPlane : K)
deriving DecidableEq, Repr

/-- Outward calls issued by the member functions, in program order. -/
inductive Effect (K : Type) where
  /-- `QWidget::update()`: a redraw request. -/
  | update
  /-- `emit updateUI()`; the connected slot shows the value `ui_.fps` has at
  that moment, which is the argument. -/
  | updateUI (fps : Nat)
  /-- An OpenGL / Qt call whose arguments are constants of the source. -/
  | call (name : String)
  | glViewport (x y w h : Int)
  | uniformLocation (name : String)
  | setUniformMatrix (location : Int) (m : QMatrix4x4 K)
  | setUniformFloat (location : Int) (v : K)
  | setUniformVec2 (location : Int) (v : QVector2D K)
  | setUniformVec3 (location : Int) (v : QVector3D K)
  | glDrawElements (count : Nat)
deriving DecidableEq, Repr

/-- The state of a `Window` object (members of `Window.h`), with the two
inherited `QWidget` properties `width()` and `height()` the code reads. The
members `model_` and `view_` are reset to the identity on every frame and
`texture_`, `vao_`, `vbo_`, `ibo_`, `program_` are GPU handles; they appear
only through the calls recorded as `Effect`s. -/
structure Window (K : Type) where
  width : Int
  height : Int
  isPressed_ : Bool
  lastMousePos_ : QPoint
  zoomLog_ : K
  iterationsUniform_ : Int
  colorUniform_ : Int
  positionUniform_ : Int
  zoomUniform_ : Int
  iterationsValue_ : K
  colorValue_ : QVector3D K
  modelCenterPos_ : QVector2D K
  mvpUniform_ : Int
  projection_ : QMatrix4x4 K
  /-- Clock reading (ms) at which `timer_` was last started or restarted. -/
  timer_ : Int
  frameCount_ : Nat
  /-- The member `ui_.fps`. -/
  fps : Nat
  animated_ : Bool
deriving DecidableEq, Repr

section Code

variable {K : Type} [LinearOrderedField K]

/-- The object right after construction in a widget of the given size: the
default member initialisers of `Window.h`; the constructor starts `timer_` at
the current clock reading `now`. -/
def Window.initial (width height now : Int) : Window K where
  width := width
  height := height
  isPressed_ := false
  lastMousePos_ := ⟨0, 0⟩
  zoomLog_ := -1
  iterationsUniform_ := -1
  colorUniform_ := -1
  positionUniform_ := -1
  zoomUniform_ := -1
  iterationsValue_ := 30
  colorValue_ := ⟨22 / 100, 30 / 100, 9 / 10⟩
  modelCenterPos_ := ⟨0, 0⟩
  mvpUniform_ := -1
  projection_ := QMatrix4x4.identity
  timer_ := now
  frameCount_ := 0
  fps := 0
  animated_ := true

/-- C++ `std::clamp(v, lo, hi)`: `(v < lo) ? lo : (hi < v) ? hi : v`. -/
def clamp (v lo hi : K) : K :=
  if v < lo then lo else if hi < v then hi else v

/-- `Window::toModelCoords`. -/
def toModelCoords (s : Window K) (p : QPoint) : QVector2D K :=
  let scale : K := ((min s.width s.height : Int) : K)
  ⟨2 * ((p.x : K) - (s.width : K) / 2) / scale,
   2 * ((s.height : K) / 2 - (p.y : K)) / scale⟩

/-- `Window::mousePressEvent`. -/
def mousePressEvent (s : Window K) (pos : QPoint) : Window K × List (Effect K) :=
  ({ s with isPressed_ := true, lastMousePos_ := pos }, [])

/-- `Window::mouseMoveEvent`. -/
def mouseMoveEvent (exp : K → K) (s : Window K) (pos : QPoint) :
    Window K × List (Effect K) :=
  if s.isPressed_ then
    let delta : QVector2D K := toModelCoords s pos - toModelCoords s s.lastMousePos_
    let s1 := { s with lastMousePos_ := pos }
    ({ s1 with modelCenterPos_ := s1.modelCenterPos_ - delta / exp s1.zoomLog_ }, [])
  else
    (s, [])

/-- `Window::mouseReleaseEvent`. -/
def mouseReleaseEvent (s : Window K) : Window K × List (Effect K) :=
  ({ s with isPressed_ := false }, [])

/-- `Window::wheelEvent`; `angleDeltaY` is `event->angleDelta().y()`. -/
def wheelEvent (exp : K → K) (s : Window K) (angleDeltaY : Int) (pos : QPoint) :
    Window K × List (Effect K) :=
  let deltaZoomLog : K := (angleDeltaY : K) / 1000
  let newZoomLog : K := clamp (s.zoomLog_ + deltaZoomLog) (-15) 15
  let modelMoucePos : QVector2D K := s.modelCenterPos_ + toModelCoords s pos / exp s.zoomLog_
  let s1 := { s with modelCenterPos_ :=
    modelMoucePos + (s.modelCenterPos_ - modelMoucePos) / exp (newZoomLog - s.zoomLog_) }
  ({ s1 with zoomLog_ := newZoomLog }, [])

/-- The pointer and wheel events the widget receives. -/
inductive InputEvent where
  | press (pos : QPoint)
  | move (pos : QPoint)
  | release
  | wheel (angleDeltaY : Int) (pos : QPoint)
deriving DecidableEq, Repr

/-- Dispatch of one input event to its handler; the resulting state. -/
def handle (exp : K → K) (s : Window K) : InputEvent → Window K
  | .press pos => (mousePressEvent s pos).1
  | .move pos => (mouseMoveEvent exp s pos).1
  | .release => (mouseReleaseEvent s).1
  | .wheel d pos => (wheelEvent exp s d pos).1

/-- The state after a finite sequence of input events, handled in order. -/
def run (exp : K → K) (s : Window K) (events : List InputEvent) : Window K :=
  events.foldl (handle exp) s

/-- The half-extent computation of `Window::onResize` (`w`, `h`, `ww`, `hh`),
returning `(ww, hh)` together with the divisors of the divisions it executed. -/
def halfExtents (width height : Nat) : (K × K) × List K :=
  let w : K := (width : K)
  let h : K := (height : K)
  if w > h then
    ((w / h, 1), [h])
  else
    ((1, h / w), [w])

/-- C++ `static_cast<GLint>` of a `size_t`: reduction to 32-bit two's complement. -/
def toGLint (n : Nat) : Int :=
  ((n : Int) + 2 ^ 31) % 2 ^ 32 - 2 ^ 31

/-- `Window::onResize`. -/
def onResize (s : Window K) (width height : Nat) : Window K × List (Effect K) :=
  let e : K × K := (halfExtents width height).1
  ({ s with projection_ := QMatrix4x4.ortho (-e.1) e.1 (-e.2) e.2 (-1) 1 },
   [Effect.glViewport 0 0 (toGLint width) (toGLint height)])

/-- Rounding of a rational to the nearest integer, halfway cases to the even
one: the rounding rule of IEEE 754 arithmetic. -/
def roundEven (x : ℚ) : ℤ :=
  if x - ⌊x⌋ < 1 / 2 then ⌊x⌋
  else if 1 / 2 < x - ⌊x⌋ then ⌊x⌋ + 1
  else if ⌊x⌋ % 2 = 0 then ⌊x⌋ else ⌊x⌋ + 1

/-- The float32 (IEEE 754 binary32) value nearest to the rational `x`, halfway
cases to the even significand: what a conversion to `float`, or a `float`
operation with exact result `x`, yields. The significand has 24 bits and the
exponent is not below -126 (subnormals included). Overflow to infinity is not
modelled; the sampler rounds no value above `2 ^ 64`. -/
def f32 (x : ℚ) : ℚ :=
  let e : ℤ := max (Int.log 2 |x|) (-126)
  let ulp : ℚ := 2 ^ (e - 23)
  roundEven (x / ulp) * ulp

/-- C++ `std::round`: nearest integer, halfway cases away from zero. The
result is a float32 value whenever the argument is. -/
def cround (x : ℚ) : ℤ :=
  if 0 ≤ x then ⌊x + 1 / 2⌋ else ⌈x - 1 / 2⌉

/-- C++ `static_cast<size_t>` of an integer-valued `float`: the value itself
when it lies in `[0, 2 ^ 64)`; undefined behaviour (`none`) otherwise. -/
def toSizeT (z : ℤ) : Option Nat :=
  if 0 ≤ z ∧ z < 2 ^ 64 then some z.toNat else none

/-- The local `elapsedSeconds` of the `captureMetrics` callback:
`static_cast<float>(timer_.restart()) / 1000.0f`, for `restart()` returning
`elapsed`. -/
def elapsedSeconds (elapsed : Int) : ℚ :=
  f32 (f32 (elapsed : ℚ) / 1000)

/-- The value of `std::round(frameCount_ / elapsedSeconds)` in the
`captureMetrics` callback: `frameCount_` is converted to `float` and divided. -/
def sampledRate (frameCount : Nat) (elapsed : Int) : ℤ :=
  cround (f32 (f32 (frameCount : ℚ) / elapsedSeconds elapsed))

/-- The callback `Window::captureMetrics` hands to its `PerfomanceMetricsGuard`,
which the guard's destructor runs; `now` is the clock reading at that moment
(`timer_.elapsed()` is `now - timer_`, `timer_.restart()` returns the same
value and stores `now`). -/
def captureMetricsCallback (s : Window K) (now : Int) :
    Option (Window K × List (Effect K)) :=
  if now - s.timer_ ≥ 1000 then
    let elapsed : Int := now - s.timer_
    let s1 := { s with timer_ := now }
    match toSizeT (sampledRate s1.frameCount_ elapsed) with
    | none => none
    | some fps =>
      let s2 := { s1 with fps := fps }
      let s3 := { s2 with frameCount_ := 0 }
      some (s3, [Effect.updateUI s3.fps])
  else
    some (s, [])

/-- The constant `indices` of `Window.cpp`. -/
def indices : List Nat := [0, 1, 2, 0, 2, 3]

/-- The statements of `Window::onRender` after the construction of the guard,
up to the end of the function body. `view_` and `model_` are the identity, so
`mvp` is `projection_`. -/
def onRenderBody (s : Window K) : Window K × List (Effect K) :=
  let mvp : QMatrix4x4 K := s.projection_
  let draw : List (Effect K) :=
    [Effect.call "glClear", Effect.call "program_->bind", Effect.call "vao_.bind",
     Effect.setUniformMatrix s.mvpUniform_ mvp,
     Effect.setUniformFloat s.iterationsUniform_ s.iterationsValue_,
     Effect.setUniformVec3 s.colorUniform_ s.colorValue_,
     Effect.setUniformFloat s.iterationsUniform_ s.iterationsValue_,
     Effect.setUniformVec3 s.colorUniform_ s.colorValue_,
     Effect.setUniformVec2 s.positionUniform_ s.modelCenterPos_,
     Effect.setUniformFloat s.zoomUniform_ s.zoomLog_,
     Effect.glDrawElements indices.length,
     Effect.call "vao_.release", Effect.call "program_->release"]
  let s1 := { s with frameCount_ := (s.frameCount_ + 1) % 2 ^ 64 }
  let redraw : List (Effect K) := if s1.animated_ then [Effect.update] else []
  (s1, draw ++ redraw)

/-- `Window::onRender`: the body, then the guard's destructor runs the
`captureMetrics` callback, at clock reading `now`. -/
def onRender (s : Window K) (now : Int) : Option (Window K × List (Effect K)) :=
  match captureMetricsCallback (onRenderBody s).1 now with
  | none => none
  | some r => some (r.1, (onRenderBody s).2 ++ r.2)

/-- What the OpenGL context answers during `onInit`: the `bool` returned by
`program_->link()` and the location reported for each uniform name. -/
structure GLEnv where
  linkOk : Bool
  location : String → Int

/-- `Window::onInit`. The value of `program_->link()` is discarded by the
source, so `env.linkOk` is not consulted. -/
def onInit (env : GLEnv) (s : Window K) : Window K × List (Effect K) :=
  let s1 := { s with mvpUniform_ := env.location "mvp" }
  let s2 := { s1 with iterationsUniform_ := env.location "iterations" }
  let s3 := { s2 with colorUniform_ := env.location "colorMult" }
  let s4 := { s3 with positionUniform_ := env.location "pos" }
  let s5 := { s4 with zoomUniform_ := env.location "zoomLog" }
  (s5,
   [Effect.call "program_ = make_unique<QOpenGLShaderProgram>",
    Effect.call "program_->addShaderFromSourceFile(Vertex)",
    Effect.call "program_->addShaderFromSourceFile(Fragment)",
    Effect.call "program_->link",
    Effect.call "vao_.create", Effect.call "vao_.bind",
    Effect.call "vbo_.create", Effect.call "vbo_.bind",
    Effect.call "vbo_.setUsagePattern", Effect.call "vbo_.allocate",
    Effect.call "ibo_.create", Effect.call "ibo_.bind",
    Effect.call "ibo_.setUsagePattern", Effect.call "ibo_.allocate",
    Effect.call "program_->bind",
    Effect.call "program_->enableAttributeArray(0)",
    Effect.call "program_->setAttributeBuffer(0)",
    Effect.call "program_->enableAttributeArray(1)",
    Effect.call "program_->setAttributeBuffer(1)",
    Effect.uniformLocation "mvp", Effect.uniformLocation "iterations",
    Effect.uniformLocation "colorMult", Effect.uniformLocation "pos",
    Effect.uniformLocation "zoomLog",
    Effect.call "program_->release", Effect.call "vao_.release",
    Effect.call "ibo_.release", Effect.call "vbo_.release",
    Effect.call "glEnable(GL_DEPTH_TEST)", Effect.call "glEnable(GL_CULL_FACE)",
    Effect.call "glClearColor", Effect.call "glClear"])

/-- The slot the constructor connects to `iterationsSlider_`'s `valueChanged`. -/
def iterationsValueChanged (s : Window K) (value : Int) : Window K × List (Effect K) :=
  ({ s with iterationsValue_ := (value : K) }, [Effect.update])

/-- The constructor's `updateColor`, connected to the three colour sliders;
`red`, `green`, `blue` are the sliders' current `value()`s. -/
def updateColor (s : Window K) (red green blue : Int) : Window K × List (Effect K) :=
  ({ s with colorValue_ := ⟨(red : K) / 100, (green : K) / 100, (blue : K) / 100⟩ },
   [Effect.update])

/-- A context in which linking the shader program fails and, as Qt does for
an unlinked program, every uniform lookup answers -1. -/
def failedLinkEnv : GLEnv where
  linkOk := false
  location := fun _ => -1

/-- Every operation the program performs on a constructed `Window`: an input
event, a frame, a resize, the initialisation, and the two slider slots. -/
inductive Step where
  | input (e : InputEvent)
  | render (now : Int)
  | resize (width height : Nat)
  | init (env : GLEnv)
  | iterations (value : Int)
  | color (red green blue : Int)

/-- The state after one operation; `none` when it ran into undefined behaviour. -/
def exec (exp : K → K) (s : Window K) : Step → Option (Window K)
  | .input e => some (handle exp s e)
  | .render now =>
    match onRender s now with
    | none => none
    | some r => some r.1
  | .resize width height => some (onResize s width height).1
  | .init env => some (onInit env s).1
  | .iterations value => some (iterationsValueChanged s value).1
  | .color red green blue => some (updateColor s red green blue).1

/-- The state after a finite sequence of operations, performed in order. -/
def execAll (exp : K → K) (s : Window K) : List Step → Option (Window K)
  | [] => some s
  | step :: rest =>
    match exec exp s step with
    | none => none
    | some s1 => execAll exp s1 rest

end Code

/-! ## Shared lemmas -/

section Lemmas

variable {K : Type} [LinearOrderedField K]

@[simp] theorem QVector2D.add_x (a b : QVector2D K) : (a + b).x = a.x + b.x := rfl

@[simp] theorem QVector2D.add_y (a b : QVector2D K) : (a + b).y = a.y + b.y := rfl

@[simp] theorem QVector2D.sub_x (a b : QVector2D K) : (a - b).x = a.x - b.x := rfl

@[simp] theorem QVector2D.sub_y (a b : QVector2D K) : (a - b).y = a.y - b.y := rfl

@[simp] theorem QVector2D.div_x (a : QVector2D K) (d : K) : (a / d).x = a.x / d := rfl

@[simp] theorem QVector2D.div_y (a : QVector2D K) (d : K) : (a / d).y = a.y / d := rfl

theorem clamp_mem (v lo hi : K) (h : lo ≤ hi) : lo ≤ clamp v lo hi ∧ clamp v lo hi ≤ hi := by
  unfold clamp
  split_ifs with h1 h2
  · exact ⟨le_refl _, h⟩
  · exact ⟨h, le_refl _⟩
  · exact ⟨not_lt.mp h1, not_lt.mp h2⟩

theorem handle_zoomLog_mem (exp : K → K) (s : Window K) (e : InputEvent)
    (h : -15 ≤ s.zoomLog_ ∧ s.zoomLog_ ≤ 15) :
    -15 ≤ (handle exp s e).zoomLog_ ∧ (handle exp s e).zoomLog_ ≤ 15 := by
  cases e with
  | press pos => simpa [handle, mousePressEvent] using h
  | move pos =>
    unfold handle mouseMoveEvent
    by_cases hp : s.isPressed_ = true
    · simpa [hp] using h
    · simpa [hp] using h
  | release => simpa [handle, mouseReleaseEvent] using h
  | wheel d pos =>
    simp only [handle, wheelEvent]
    exact clamp_mem _ _ _ (by norm_num)

theorem run_zoomLog_mem (exp : K → K) (events : List InputEvent) :
    ∀ s : Window K, (-15 ≤ s.zoomLog_ ∧ s.zoomLog_ ≤ 15) →
      -15 ≤ (run exp s events).zoomLog_ ∧ (run exp s events).zoomLog_ ≤ 15 := by
  induction events with
  | nil => intro s h; simpa [run] using h
  | cons e rest ih =>
    intro s h
    have := ih (handle exp s e) (handle_zoomLog_mem exp s e h)
    simpa [run] using this

theorem run_moves_unpressed (exp : K → K) (moves : List QPoint) :
    ∀ s : Window K, s.isPressed_ = false →
      run exp s (moves.map InputEvent.move) = s := by
  induction moves with
  | nil => intro s _; rfl
  | cons p rest ih =>
    intro s h
    have hs : handle exp s (InputEvent.move p) = s := by
      simp [handle, mouseMoveEvent, h]
    simp only [run, List.map_cons, List.foldl_cons, hs]
    exact ih s h

/-- Zoom about a cursor offset `m` keeps the anchored point, for any `exp`
that turns differences into quotients and never vanishes. -/
theorem anchor_fixed (exp : K → K) (hsub : ∀ a b, exp (a - b) = exp a / exp b)
    (hne : ∀ a, exp a ≠ 0) (c m z z1 : K) :
    c + m / exp z =
      (c + m / exp z) + (c - (c + m / exp z)) / exp (z1 - z) + m / exp z1 := by
  rw [hsub]
  have h1 := hne z
  have h2 := hne z1
  field_simp
  ring

theorem roundEven_intCast (m : ℤ) : roundEven (m : ℚ) = m := by
  simp [roundEven]

theorem roundEven_eq_of_close (x : ℚ) (m : ℤ) (h : |x - m| < 1 / 2) : roundEven x = m := by
  rw [abs_lt] at h
  obtain ⟨h1, h2⟩ := h
  by_cases hx : (m : ℚ) ≤ x
  · have hf : ⌊x⌋ = m := by
      rw [Int.floor_eq_iff]
      constructor
      · exact hx
      · linarith
    have : x - (⌊x⌋ : ℚ) < 1 / 2 := by rw [hf]; linarith
    unfold roundEven
    rw [if_pos this]
    exact hf
  · have hx1 : x < m := not_le.mp hx
    have hf : ⌊x⌋ = m - 1 := by
      rw [Int.floor_eq_iff]
      push_cast
      constructor <;> linarith
    have hfq : (⌊x⌋ : ℚ) = (m : ℚ) - 1 := by rw [hf]; push_cast; ring
    have n1 : ¬ (x - (⌊x⌋ : ℚ) < 1 / 2) := by rw [hfq]; linarith
    have n2 : 1 / 2 < x - (⌊x⌋ : ℚ) := by rw [hfq]; linarith
    unfold roundEven
    rw [if_neg n1, if_pos n2, hf]
    ring

theorem roundEven_le_of_le (x : ℚ) (N : ℤ) (h : x ≤ N) : roundEven x ≤ N := by
  have hfl : ⌊x⌋ ≤ N := Int.floor_le_iff.mpr (by linarith [Int.lt_floor_add_one x, h, Int.floor_le x] ) 
  have hstep : ¬ (x - (⌊x⌋ : ℚ) < 1 / 2) → ⌊x⌋ + 1 ≤ N := by
    intro hn
    have h1 : (⌊x⌋ : ℚ) < N := by linarith
    have : ⌊x⌋ < N := by exact_mod_cast h1
    omega
  unfold roundEven
  split_ifs with a b c
  · exact hfl
  · exact hstep a
  · exact hfl
  · exact hstep a

theorem le_roundEven_of_le (x : ℚ) (N : ℤ) (h : (N : ℚ) ≤ x) : N ≤ roundEven x := by
  have hfl : N ≤ ⌊x⌋ := Int.le_floor.mpr h
  unfold roundEven
  split_ifs <;> omega

theorem binade_eq (x : ℚ) (k : ℤ) (h1 : (2 : ℚ) ^ k ≤ |x|) (h2 : |x| < (2 : ℚ) ^ (k + 1)) :
    Int.log 2 |x| = k := by
  have hpos : (0 : ℚ) < |x| := lt_of_lt_of_le (by positivity) h1
  have a : k ≤ Int.log 2 |x| := (Int.zpow_le_iff_le_log (by norm_num) hpos).mp (by exact_mod_cast h1)
  have b : Int.log 2 |x| < k + 1 := (Int.lt_zpow_iff_log_lt (by norm_num) hpos).mp (by exact_mod_cast h2)
  omega

theorem f32_eq_of_binade (x : ℚ) (k m : ℤ) (hk : -126 ≤ k) (h1 : (2 : ℚ) ^ k ≤ |x|)
    (h2 : |x| < (2 : ℚ) ^ (k + 1)) (hm : |x / 2 ^ (k - 23) - m| < 1 / 2) :
    f32 x = m * 2 ^ (k - 23) := by
  unfold f32
  simp only [binade_eq x k h1 h2, max_eq_left hk]
  rw [roundEven_eq_of_close _ m hm]


theorem roundEven_nonneg (x : ℚ) (h : 0 ≤ x) : 0 ≤ roundEven x := by
  have := le_roundEven_of_le x 0 (by simpa using h)
  exact this

theorem f32_zero : f32 0 = 0 := by
  simp [f32, roundEven]

theorem f32_nonneg (x : ℚ) (h : 0 ≤ x) : 0 ≤ f32 x := by
  unfold f32
  have hu : (0 : ℚ) < 2 ^ (max (Int.log 2 |x|) (-126) - 23) := by positivity
  have hr : (0 : ℤ) ≤ roundEven (x / 2 ^ (max (Int.log 2 |x|) (-126) - 23)) :=
    roundEven_nonneg _ (div_nonneg h hu.le)
  have hq : (0 : ℚ) ≤ (roundEven (x / 2 ^ (max (Int.log 2 |x|) (-126) - 23)) : ℚ) := by
    exact_mod_cast hr
  exact mul_nonneg hq hu.le

theorem f32_le_two_zpow (x : ℚ) (j : ℤ) (hj : -126 ≤ j) (h0 : 0 ≤ x) (h : x ≤ 2 ^ j) :
    f32 x ≤ 2 ^ j := by
  rcases eq_or_lt_of_le h0 with hz | hpos
  · rw [← hz, f32_zero]
    positivity
  · have hL : Int.log 2 |x| ≤ j := by
      rw [abs_of_pos hpos]
      have := Int.log_mono_right (b := 2) hpos h
      rwa [show ((2 : ℚ) ^ j) = (((2 : ℕ) : ℚ) ^ j) by norm_num, Int.log_zpow (by norm_num)] at this
    have hk : max (Int.log 2 |x|) (-126) ≤ j := max_le hL hj
    unfold f32
    generalize max (Int.log 2 |x|) (-126) = k at hk
    have hu : (0 : ℚ) < 2 ^ (k - 23) := by positivity
    obtain ⟨t, ht⟩ : ∃ t : ℕ, j - (k - 23) = (t : ℤ) := ⟨(j - (k - 23)).toNat, by omega⟩
    have hpow : (2 : ℚ) ^ j = (((2 ^ t : ℕ) : ℤ) : ℚ) * 2 ^ (k - 23) := by
      have : j = (t : ℤ) + (k - 23) := by omega
      rw [this, zpow_add₀ (by norm_num), zpow_natCast]
      push_cast
      ring
    have hle : x / 2 ^ (k - 23) ≤ (((2 ^ t : ℕ) : ℤ) : ℚ) := by
      rw [div_le_iff₀ hu, ← hpow]
      exact h
    have hr := roundEven_le_of_le _ _ hle
    have hrq : (roundEven (x / 2 ^ (k - 23)) : ℚ) ≤ (((2 ^ t : ℕ) : ℤ) : ℚ) := by exact_mod_cast hr
    rw [hpow]
    exact mul_le_mul_of_nonneg_right hrq hu.le

theorem two_zpow_le_f32 (x : ℚ) (j : ℤ) (hj : -126 ≤ j) (h : 2 ^ j ≤ x) : 2 ^ j ≤ f32 x := by
  have hpos : 0 < x := lt_of_lt_of_le (by positivity) h
  have hjL : j ≤ Int.log 2 |x| := by
    rw [abs_of_pos hpos]
    exact (Int.zpow_le_iff_le_log (by norm_num) hpos).mp (by exact_mod_cast h)
  have hself : (2 : ℚ) ^ Int.log 2 |x| ≤ x := by
    rw [abs_of_pos hpos]
    have := Int.zpow_log_le_self (b := 2) (r := x) (by norm_num) hpos
    exact_mod_cast this
  unfold f32
  rw [max_eq_left (by omega)]
  generalize Int.log 2 |x| = k at hjL hself
  have hu : (0 : ℚ) < 2 ^ (k - 23) := by positivity
  have hpow : (2 : ℚ) ^ k = (((2 ^ 23 : ℕ) : ℤ) : ℚ) * 2 ^ (k - 23) := by
    have : k = ((23 : ℕ) : ℤ) + (k - 23) := by omega
    conv_lhs => rw [this]
    rw [zpow_add₀ (by norm_num), zpow_natCast]
    push_cast
    ring
  have hle : (((2 ^ 23 : ℕ) : ℤ) : ℚ) ≤ x / 2 ^ (k - 23) := by
    rw [le_div_iff₀ hu, ← hpow]
    exact hself
  have hr := le_roundEven_of_le _ _ hle
  have hrq : (((2 ^ 23 : ℕ) : ℤ) : ℚ) ≤ (roundEven (x / 2 ^ (k - 23)) : ℚ) := by exact_mod_cast hr
  calc (2 : ℚ) ^ j ≤ 2 ^ k := zpow_le_zpow_right₀ (by norm_num) hjL
    _ = (((2 ^ 23 : ℕ) : ℤ) : ℚ) * 2 ^ (k - 23) := hpow
    _ ≤ _ := mul_le_mul_of_nonneg_right hrq hu.le

theorem f32_natCast (n : ℕ) (h : n < 2 ^ 24) : f32 (n : ℚ) = n := by
  rcases Nat.eq_zero_or_pos n with hz | hpos
  · subst hz
    simpa using f32_zero
  · have hl : Nat.log 2 n < 24 := Nat.log_lt_of_lt_pow (by omega) h
    unfold f32
    rw [abs_of_nonneg (by positivity), Int.log_natCast, max_eq_left (by omega)]
    dsimp only
    obtain ⟨t, ht⟩ : ∃ t : ℕ, t + Nat.log 2 n = 23 := ⟨23 - Nat.log 2 n, by omega⟩
    have hk : ((Nat.log 2 n : ℕ) : ℤ) - 23 = -(t : ℤ) := by omega
    rw [hk, zpow_neg, zpow_natCast]
    have hx : (n : ℚ) / ((2 : ℚ) ^ t)⁻¹ = (((n * 2 ^ t : ℕ) : ℤ) : ℚ) := by
      push_cast
      field_simp
    rw [hx, roundEven_intCast]
    push_cast
    field_simp

theorem cround_natCast (n : ℕ) : cround (n : ℚ) = n := by
  have h0 : (0 : ℚ) ≤ (n : ℚ) := by positivity
  unfold cround
  rw [if_pos h0, Int.floor_eq_iff]
  push_cast
  constructor <;> linarith

theorem cround_bounds (x : ℚ) (N : ℤ) (h0 : 0 ≤ x) (h : x ≤ N) :
    0 ≤ cround x ∧ cround x ≤ N := by
  unfold cround
  rw [if_pos h0]
  constructor
  · exact Int.floor_nonneg.mpr (by linarith)
  · have : ⌊x + 1 / 2⌋ < N + 1 := by
      rw [Int.floor_lt]
      push_cast
      linarith
    omega

theorem roundEven_half_even (m : ℤ) (h : m % 2 = 0) : roundEven ((m : ℚ) + 1 / 2) = m := by
  have hf : ⌊(m : ℚ) + 1 / 2⌋ = m := by
    rw [Int.floor_eq_iff]
    constructor <;> linarith
  have n1 : ¬ ((m : ℚ) + 1 / 2 - ((⌊(m : ℚ) + 1 / 2⌋ : ℤ) : ℚ) < 1 / 2) := by
    rw [hf]
    linarith
  have n2 : ¬ (1 / 2 < (m : ℚ) + 1 / 2 - ((⌊(m : ℚ) + 1 / 2⌋ : ℤ) : ℚ)) := by
    rw [hf]
    linarith
  unfold roundEven
  rw [if_neg n1, if_neg n2, hf, if_pos h]

/-- The conversion of `2^24 + 1` to `float` is a halfway case, resolved to the
even significand. -/
theorem f32_tie : f32 (16777217 : ℚ) = 16777216 := by
  have hlog : Int.log 2 |(16777217 : ℚ)| = 24 :=
    binade_eq _ 24 (by norm_num [abs_of_pos]) (by norm_num [abs_of_pos])
  have hx : (16777217 : ℚ) / 2 ^ ((24 : ℤ) - 23) = ((8388608 : ℤ) : ℚ) + 1 / 2 := by
    norm_num
  unfold f32
  rw [hlog, max_eq_left (by norm_num)]
  dsimp only
  rw [hx, roundEven_half_even 8388608 (by decide)]
  norm_num

theorem elapsedSeconds_exact : elapsedSeconds 1000 = 1 := by
  have h1 : f32 (1000 : ℚ) = 1000 := by
    simpa using f32_natCast 1000 (by norm_num)
  have h2 : f32 (1 : ℚ) = 1 := by
    simpa using f32_natCast 1 (by norm_num)
  unfold elapsedSeconds
  norm_num [h1, h2]

theorem sampledRate_exact (n : Nat) (h : n < 2 ^ 24) : sampledRate n 1000 = n := by
  unfold sampledRate
  rw [elapsedSeconds_exact, div_one, f32_natCast n h, f32_natCast n h, cround_natCast]

theorem elapsedSeconds_ge_half (e : Int) (he : 1000 ≤ e) :
    (2 : ℚ) ^ (-1 : ℤ) ≤ elapsedSeconds e := by
  have heq : (1000 : ℚ) ≤ (e : ℚ) := by exact_mod_cast he
  have h1 : (2 : ℚ) ^ (9 : ℤ) ≤ f32 (e : ℚ) :=
    two_zpow_le_f32 _ 9 (by norm_num) (by norm_num; linarith)
  unfold elapsedSeconds
  apply two_zpow_le_f32 _ (-1) (by norm_num)
  norm_num at h1 ⊢
  linarith

theorem sampledRate_nonneg (n : Nat) (e : Int) (he : 1000 ≤ e) : 0 ≤ sampledRate n e := by
  have hes : (0 : ℚ) < elapsedSeconds e :=
    lt_of_lt_of_le (by norm_num) (elapsedSeconds_ge_half e he)
  have h4 : 0 ≤ f32 (n : ℚ) := f32_nonneg _ (by positivity)
  have h8 : 0 ≤ f32 (f32 (n : ℚ) / elapsedSeconds e) := f32_nonneg _ (div_nonneg h4 hes.le)
  unfold sampledRate cround
  rw [if_pos h8]
  exact Int.floor_nonneg.mpr (by linarith)

theorem sampledRate_le (n : Nat) (e : Int) (hn : n ≤ 2 ^ 62) (he : 1000 ≤ e) :
    sampledRate n e ≤ 2 ^ 63 := by
  have hnq : (n : ℚ) ≤ 2 ^ (62 : ℤ) := by
    have : (n : ℚ) ≤ ((2 ^ 62 : ℕ) : ℚ) := by exact_mod_cast hn
    norm_num at this ⊢
    exact this
  have h2 := elapsedSeconds_ge_half e he
  have h3 : f32 (n : ℚ) ≤ 2 ^ (62 : ℤ) :=
    f32_le_two_zpow _ 62 (by norm_num) (by positivity) hnq
  have h4 : 0 ≤ f32 (n : ℚ) := f32_nonneg _ (by positivity)
  have hes : (0 : ℚ) < elapsedSeconds e := lt_of_lt_of_le (by norm_num) h2
  have h5 : 0 ≤ f32 (n : ℚ) / elapsedSeconds e := div_nonneg h4 hes.le
  have h6 : f32 (n : ℚ) / elapsedSeconds e ≤ 2 ^ (63 : ℤ) := by
    rw [div_le_iff₀ hes]
    norm_num at h2 h3 ⊢
    linarith
  have h7 : f32 (f32 (n : ℚ) / elapsedSeconds e) ≤ 2 ^ (63 : ℤ) :=
    f32_le_two_zpow _ 63 (by norm_num) h5 h6
  have h8 : 0 ≤ f32 (f32 (n : ℚ) / elapsedSeconds e) := f32_nonneg _ h5
  have h9 : f32 (f32 (n : ℚ) / elapsedSeconds e) ≤ (((2 : ℤ) ^ 63 : ℤ) : ℚ) := by
    norm_num at h7 ⊢
    exact h7
  exact (cround_bounds _ _ h8 h9).2

theorem sampledRate_tie : sampledRate 16777217 1000 = 16777216 := by
  have h1 : f32 (16777216 : ℚ) = 16777216 := by
    rw [f32_eq_of_binade 16777216 24 8388608 (by norm_num) (by norm_num [abs_of_pos])
      (by norm_num [abs_of_pos])]
    · norm_num
    · norm_num [abs_lt]
  have h2 : cround (16777216 : ℚ) = 16777216 := by
    simpa using cround_natCast 16777216
  unfold sampledRate
  rw [elapsedSeconds_exact, div_one]
  push_cast
  rw [f32_tie, h1, h2]

theorem sampledRate_64_1024 : sampledRate 64 1024 = 62 := by
  have h1 : f32 (1024 : ℚ) = 1024 := by
    simpa using f32_natCast 1024 (by norm_num)
  have h2 : f32 (64 : ℚ) = 64 := by
    simpa using f32_natCast 64 (by norm_num)
  have h3 : f32 (1024 / 1000 : ℚ) = 8589935 / 2 ^ 23 := by
    rw [f32_eq_of_binade (1024 / 1000) 0 8589935 (by norm_num) (by norm_num [abs_of_pos])
      (by norm_num [abs_of_pos])]
    · norm_num
    · norm_num [abs_lt]
  have h4 : f32 (64 / (8589935 / 2 ^ 23) : ℚ) = 16383999 / 2 ^ 18 := by
    rw [f32_eq_of_binade (64 / (8589935 / 2 ^ 23)) 5 16383999 (by norm_num)
      (by norm_num [abs_of_pos]) (by norm_num [abs_of_pos])]
    · norm_num
    · norm_num [abs_lt]
  unfold sampledRate elapsedSeconds
  push_cast
  rw [h1, h3, h2, h4]
  unfold cround
  rw [if_pos (by norm_num), Int.floor_eq_iff]
  norm_num

end Lemmas

theorem captureMetricsCallback_fire {K : Type} (s : Window K) (now : Int) (rate : Nat)
    (he : 1000 ≤ now - s.timer_)
    (hr : sampledRate s.frameCount_ (now - s.timer_) = (rate : ℤ)) (hlt : rate < 2 ^ 64) :
    captureMetricsCallback s now =
      some ({ s with timer_ := now, fps := rate, frameCount_ := 0 },
            [Effect.updateUI rate]) := by
  have hge : now - s.timer_ ≥ 1000 := he
  have hc : toSizeT (sampledRate s.frameCount_ (now - s.timer_)) = some rate := by
    unfold toSizeT
    rw [hr, if_pos ⟨by positivity, by exact_mod_cast hlt⟩, Int.toNat_natCast]
  unfold captureMetricsCallback
  rw [if_pos hge]
  simp only [hc]

theorem captureMetricsCallback_idle {K : Type} (s : Window K) (now : Int) (he : now - s.timer_ < 1000) :
    captureMetricsCallback s now = some (s, []) := by
  have hge : ¬ (now - s.timer_ ≥ 1000) := by omega
  unfold captureMetricsCallback
  rw [if_neg hge]

/-- What every run of the callback that returns leaves alone. -/
theorem captureMetricsCallback_frame {K : Type} (s : Window K) (now : Int)
    (r : Window K × List (Effect K)) (h : captureMetricsCallback s now = some r) :
    r.1.animated_ = s.animated_ ∧ Effect.update ∉ r.2 := by
  unfold captureMetricsCallback at h
  split_ifs at h with hge
  · cases hc : toSizeT (sampledRate s.frameCount_ (now - s.timer_)) with
    | none => simp [hc] at h
    | some fps =>
      simp only [hc, Option.some.injEq] at h
      subst h
      simp
  · simp only [Option.some.injEq] at h
    subst h
    simp

theorem captureMetricsCallback_overflow {K : Type} (s : Window K) (now : Int)
    (he : 1000 ≤ now - s.timer_) (h : 2 ^ 64 ≤ sampledRate s.frameCount_ (now - s.timer_)) :
    captureMetricsCallback s now = none := by
  have hge : now - s.timer_ ≥ 1000 := he
  have hc : toSizeT (sampledRate s.frameCount_ (now - s.timer_)) = none := by
    unfold toSizeT
    rw [if_neg (by omega)]
  unfold captureMetricsCallback
  rw [if_pos hge]
  simp only [hc]

theorem onRenderBody_animated {K : Type} (s : Window K) :
    (onRenderBody s).1.animated_ = s.animated_ := rfl

theorem onRender_animated {K : Type} (s : Window K) (now : Int)
    (r : Window K × List (Effect K)) (h : onRender s now = some r) :
    r.1.animated_ = s.animated_ := by
  unfold onRender at h
  cases hc : captureMetricsCallback (onRenderBody s).1 now with
  | none => simp [hc] at h
  | some r1 =>
    simp only [hc, Option.some.injEq] at h
    subst h
    exact (captureMetricsCallback_frame _ now r1 hc).1

section Reachable

variable {K : Type} [LinearOrderedField K]

theorem handle_animated (exp : K → K) (s : Window K) (e : InputEvent) :
    (handle exp s e).animated_ = s.animated_ := by
  cases e with
  | press pos => rfl
  | move pos =>
    simp only [handle, mouseMoveEvent]
    split_ifs <;> rfl
  | release => rfl
  | wheel d pos => rfl

theorem exec_animated (exp : K → K) (s : Window K) (step : Step) (s1 : Window K)
    (h : exec exp s step = some s1) : s1.animated_ = s.animated_ := by
  cases step with
  | input e =>
    simp only [exec, Option.some.injEq] at h
    subst h
    exact handle_animated exp s e
  | render now =>
    unfold exec at h
    cases hr : onRender s now with
    | none => simp [hr] at h
    | some r =>
      simp only [hr, Option.some.injEq] at h
      subst h
      exact onRender_animated s now r hr
  | resize width height =>
    simp only [exec, Option.some.injEq] at h
    subst h
    rfl
  | init env =>
    simp only [exec, Option.some.injEq] at h
    subst h
    rfl
  | iterations value =>
    simp only [exec, Option.some.injEq] at h
    subst h
    rfl
  | color red green blue =>
    simp only [exec, Option.some.injEq] at h
    subst h
    rfl

theorem execAll_animated (exp : K → K) (steps : List Step) :
    ∀ (s s1 : Window K), execAll exp s steps = some s1 → s1.animated_ = s.animated_ := by
  induction steps with
  | nil =>
    intro s s1 h
    simp only [execAll, Option.some.injEq] at h
    subst h
    rfl
  | cons step rest ih =>
    intro s s1 h
    unfold execAll at h
    cases hs : exec exp s step with
    | none => simp [hs] at h
    | some s2 =>
      simp only [hs] at h
      rw [ih s2 s1 h, exec_animated exp s step s2 hs]

theorem onRenderBody_count (s : Window K) :
    (onRenderBody s).2.count Effect.update = if s.animated_ then 1 else 0 := by
  by_cases ha : s.animated_ = true <;> simp [onRenderBody, ha, List.count_cons]

end Reachable

/-! ## The claims -/

/-- C1 (zoom invariance of `wheelEvent`): in exact real arithmetic, for every
state of a window of positive width and height, every cursor pixel `p` and
every wheel delta `d`, the model point under the cursor is the same before
and after the event: `c + toModelCoords(p) / exp(z) = c1 + toModelCoords(p) /
exp(z1)`, where `(c1, z1)` is the centre and zoomLog after the event, clamped
or not. -/
theorem wheelEvent_zoom_invariance (s : Window ℝ) (d : Int) (p : QPoint)
    (hw : 0 < s.width) (hh : 0 < s.height) :
    s.modelCenterPos_ + toModelCoords s p / Real.exp s.zoomLog_ =
      (wheelEvent Real.exp s d p).1.modelCenterPos_ +
        toModelCoords (wheelEvent Real.exp s d p).1 p /
          Real.exp (wheelEvent Real.exp s d p).1.zoomLog_ := by
  have _ := hw
  have _ := hh
  have key := anchor_fixed Real.exp Real.exp_sub Real.exp_ne_zero
  ext
  · exact key s.modelCenterPos_.x (toModelCoords s p).x s.zoomLog_ _
  · exact key s.modelCenterPos_.y (toModelCoords s p).y s.zoomLog_ _

theorem wheelEvent_zoom_invariance_witness :
    (0 < (Window.initial 800 600 0 : Window ℝ).width ∧
      0 < (Window.initial 800 600 0 : Window ℝ).height) ∧
    (Window.initial 800 600 0 : Window ℝ).modelCenterPos_ +
        toModelCoords (Window.initial 800 600 0 : Window ℝ) ⟨100, 50⟩ /
          Real.exp (Window.initial 800 600 0 : Window ℝ).zoomLog_ =
      (wheelEvent Real.exp (Window.initial 800 600 0) 20000 ⟨100, 50⟩).1.modelCenterPos_ +
        toModelCoords (wheelEvent Real.exp (Window.initial 800 600 0) 20000 ⟨100, 50⟩).1
            ⟨100, 50⟩ /
          Real.exp (wheelEvent Real.exp (Window.initial 800 600 0) 20000 ⟨100, 50⟩).1.zoomLog_ :=
  ⟨⟨by decide, by decide⟩,
   wheelEvent_zoom_invariance (Window.initial 800 600 0) 20000 ⟨100, 50⟩
     (by decide) (by decide)⟩

/-- C2 (zoom clamp invariant): from the initial state (zoomLog = -1) of a
window of any size, after every finite sequence of press, move, release and
wheel events the zoomLog lies in [-15, 15]; press, move and release leave
zoomLog as it was, and a wheel event with delta `d` stores
`clamp(zoomLog + d/1000, -15, 15)`, that is `max(-15, min(zoomLog + d/1000, 15))`. -/
theorem zoomLog_clamp_invariant (K : Type) [LinearOrderedField K] (exp : K → K)
    (width height now : Int) :
    (Window.initial width height now : Window K).zoomLog_ = -1 ∧
    (∀ events : List InputEvent,
      -15 ≤ (run exp (Window.initial width height now : Window K) events).zoomLog_ ∧
      (run exp (Window.initial width height now : Window K) events).zoomLog_ ≤ 15) ∧
    (∀ (s : Window K) (pos : QPoint), (mousePressEvent s pos).1.zoomLog_ = s.zoomLog_) ∧
    (∀ (s : Window K) (pos : QPoint), (mouseMoveEvent exp s pos).1.zoomLog_ = s.zoomLog_) ∧
    (∀ s : Window K, (mouseReleaseEvent s).1.zoomLog_ = s.zoomLog_) ∧
    (∀ (s : Window K) (d : Int) (pos : QPoint),
      (wheelEvent exp s d pos).1.zoomLog_ = clamp (s.zoomLog_ + (d : K) / 1000) (-15) 15 ∧
      (wheelEvent exp s d pos).1.zoomLog_ = max (-15) (min (s.zoomLog_ + (d : K) / 1000) 15)) := by
  refine ⟨rfl, ?_, fun _ _ => rfl, ?_, fun _ => rfl, ?_⟩
  · intro events
    apply run_zoomLog_mem
    simp only [Window.initial]
    constructor <;> norm_num
  · intro s pos
    unfold mouseMoveEvent
    split_ifs <;> rfl
  · intro s d pos
    refine ⟨rfl, ?_⟩
    simp only [wheelEvent, clamp]
    split_ifs with h1 h2
    · rw [max_eq_left]
      exact le_trans (min_le_left _ _) h1.le
    · rw [min_eq_right h2.le, max_eq_right]
      norm_num
    · rw [min_eq_left (not_lt.mp h2), max_eq_right (not_lt.mp h1)]

/-- C6 (pan consistency of `mouseMoveEvent`): in exact real arithmetic, for
every state of a window of positive width and height and all pixel positions
`A` and `B`, a press at `A`, a move to `B` and a move back to `A` end in the
state the press at `A` produced: centerPos is the original one, zoomLog is
unchanged, the stored previous position is `A` and the button is still held. -/
theorem pan_consistency (s : Window ℝ) (A B : QPoint)
    (hw : 0 < s.width) (hh : 0 < s.height) :
    (run Real.exp s [.press A, .move B, .move A]).modelCenterPos_ = s.modelCenterPos_ ∧
    (run Real.exp s [.press A, .move B, .move A]).zoomLog_ = s.zoomLog_ ∧
    (run Real.exp s [.press A, .move B, .move A]).lastMousePos_ = A ∧
    run Real.exp s [.press A, .move B, .move A] = (mousePressEvent s A).1 := by
  have _ := hw
  have _ := hh
  have hc : (run Real.exp s [.press A, .move B, .move A]).modelCenterPos_ =
      s.modelCenterPos_ := by
    simp only [run, List.foldl, handle, mousePressEvent, mouseMoveEvent, if_true]
    ext
    · simp only [QVector2D.sub_x, QVector2D.div_x, toModelCoords]
      ring
    · simp only [QVector2D.sub_y, QVector2D.div_y, toModelCoords]
      ring
  refine ⟨hc, ?_, ?_, ?_⟩
  · simp [run, handle, mousePressEvent, mouseMoveEvent]
  · simp [run, handle, mousePressEvent, mouseMoveEvent]
  · have h3 : run Real.exp s [.press A, .move B, .move A] =
        { (mousePressEvent s A).1 with
          modelCenterPos_ := (run Real.exp s [.press A, .move B, .move A]).modelCenterPos_ } := by
      simp [run, handle, mousePressEvent, mouseMoveEvent]
    rw [h3, hc]
    rfl

theorem pan_consistency_witness :
    (0 < (Window.initial 800 600 0 : Window ℝ).width ∧
      0 < (Window.initial 800 600 0 : Window ℝ).height) ∧
    (run Real.exp (Window.initial 800 600 0) [.press ⟨10, 20⟩, .move ⟨310, 75⟩,
        .move ⟨10, 20⟩]).modelCenterPos_ = (⟨0, 0⟩ : QVector2D ℝ) :=
  ⟨⟨by decide, by decide⟩,
   (pan_consistency (Window.initial 800 600 0) ⟨10, 20⟩ ⟨310, 75⟩ (by decide) (by decide)).1⟩

/-- C9 (wheel at the window centre): in exact real arithmetic, in every window
of even positive width `W` and height `H`, for every state and wheel delta `d`,
the pixel `(W/2, H/2)` has model coordinates `(0, 0)` and a wheel event there
leaves centerPos as it was and sets zoomLog to `clamp(z + d/1000, -15, 15)`.
From the initial state of an 800x600 window, delta +500 at `(400, 300)` gives
zoomLog = -0.5 and centerPos = (0, 0). -/
theorem wheelEvent_at_centre :
    (∀ (s : Window ℝ) (d : Int), 0 < s.width → 0 < s.height →
        2 ∣ s.width → 2 ∣ s.height →
      toModelCoords s ⟨s.width / 2, s.height / 2⟩ = ⟨0, 0⟩ ∧
      (wheelEvent Real.exp s d ⟨s.width / 2, s.height / 2⟩).1.modelCenterPos_ =
        s.modelCenterPos_ ∧
      (wheelEvent Real.exp s d ⟨s.width / 2, s.height / 2⟩).1.zoomLog_ =
        clamp (s.zoomLog_ + (d : ℝ) / 1000) (-15) 15) ∧
    (∀ now : Int,
      (wheelEvent Real.exp (Window.initial 800 600 now) 500 ⟨400, 300⟩).1.zoomLog_ =
        -(1 / 2 : ℝ) ∧
      (wheelEvent Real.exp (Window.initial 800 600 now) 500 ⟨400, 300⟩).1.modelCenterPos_ =
        ⟨0, 0⟩) := by
  have centre : ∀ (s : Window ℝ), 2 ∣ s.width → 2 ∣ s.height →
      toModelCoords s ⟨s.width / 2, s.height / 2⟩ = ⟨0, 0⟩ := by
    intro s hw2 hh2
    obtain ⟨a, ha⟩ := hw2
    obtain ⟨b, hb⟩ := hh2
    have h1 : s.width / 2 = a := by omega
    have h2 : s.height / 2 = b := by omega
    simp only [toModelCoords, h1, h2]
    rw [ha, hb]
    ext <;> simp
  have fixed : ∀ (s : Window ℝ) (d : Int) (p : QPoint),
      toModelCoords s p = ⟨0, 0⟩ →
      (wheelEvent Real.exp s d p).1.modelCenterPos_ = s.modelCenterPos_ := by
    intro s d p hp
    simp only [wheelEvent, hp]
    ext <;> simp
  refine ⟨fun s d _ _ hw2 hh2 => ⟨centre s hw2 hh2, ?_, rfl⟩, fun now => ⟨?_, ?_⟩⟩
  · exact fixed s d _ (centre s hw2 hh2)
  · simp only [wheelEvent, Window.initial, clamp]
    norm_num
  · have h := fixed (Window.initial 800 600 now) 500 ⟨400, 300⟩
      (centre (Window.initial 800 600 now) (Dvd.intro 400 rfl) (Dvd.intro 300 rfl))
    simpa [Window.initial] using h

theorem wheelEvent_at_centre_witness :
    (0 < (Window.initial 1024 768 0 : Window ℝ).width ∧
      0 < (Window.initial 1024 768 0 : Window ℝ).height ∧
      2 ∣ (Window.initial 1024 768 0 : Window ℝ).width ∧
      2 ∣ (Window.initial 1024 768 0 : Window ℝ).height) ∧
    toModelCoords (Window.initial 1024 768 0 : Window ℝ) ⟨1024 / 2, 768 / 2⟩ = ⟨0, 0⟩ :=
  ⟨⟨by decide, by decide, by decide, by decide⟩,
   (wheelEvent_at_centre.1 (Window.initial 1024 768 0) (-240)
      (by decide) (by decide) (by decide) (by decide)).1⟩

/-- C10 (pan applies only while the button is held): for every state and pixel
position, a `mouseMoveEvent` received while `isPressed_` is false changes
nothing (centerPos, zoomLog and the stored previous position included) and
issues no call; a `mouseReleaseEvent` changes nothing except setting
`isPressed_` to false; hence after a release any run of moves leaves the
state as the release left it, until the next press. -/
theorem pan_only_while_pressed (K : Type) [LinearOrderedField K] (exp : K → K) :
    (∀ (s : Window K) (pos : QPoint), s.isPressed_ = false →
      mouseMoveEvent exp s pos = (s, [])) ∧
    (∀ s : Window K, mouseReleaseEvent s = ({ s with isPressed_ := false }, [])) ∧
    (∀ (s : Window K) (moves : List QPoint),
      run exp s (InputEvent.release :: moves.map InputEvent.move) =
        { s with isPressed_ := false }) := by
  refine ⟨?_, fun _ => rfl, ?_⟩
  · intro s pos h
    simp [mouseMoveEvent, h]
  · intro s moves
    have h := run_moves_unpressed exp moves (mouseReleaseEvent s).1 rfl
    simpa [run, handle, mouseReleaseEvent] using h

theorem pan_only_while_pressed_witness :
    (Window.initial 800 600 0 : Window ℚ).isPressed_ = false ∧
    mouseMoveEvent (fun x => 1 + x) (Window.initial 800 600 0 : Window ℚ) ⟨5, 7⟩ =
      (Window.initial 800 600 0, []) :=
  ⟨rfl, (pan_only_while_pressed ℚ (fun x => 1 + x)).1 (Window.initial 800 600 0) ⟨5, 7⟩ rfl⟩

/-- C4 (aspect-fit invariant of `onResize`): for every width `w > 0` and height
`h > 0` the half-extents `(ww, hh)` are `(w/h, 1)` when `w > h` and `(1, h/w)`
otherwise, so `min(ww, hh) = 1` and `max(ww, hh) ≥ 1`, and the projection is
`ortho(-ww, ww, -hh, hh, -1, 1)`; for 800x600 they are `(800/600, 1)`. -/
theorem onResize_aspect_fit (K : Type) [LinearOrderedField K] :
    (∀ (s : Window K) (w h : Nat), 0 < w → 0 < h →
      (h < w → (halfExtents w h : (K × K) × List K).1 = ((w : K) / (h : K), 1)) ∧
      (¬ h < w → (halfExtents w h : (K × K) × List K).1 = (1, (h : K) / (w : K))) ∧
      min (halfExtents w h : (K × K) × List K).1.1 (halfExtents w h : (K × K) × List K).1.2 = 1 ∧
      1 ≤ max (halfExtents w h : (K × K) × List K).1.1 (halfExtents w h : (K × K) × List K).1.2 ∧
      (onResize s w h).1.projection_ =
        QMatrix4x4.ortho (-(halfExtents w h : (K × K) × List K).1.1) (halfExtents w h).1.1
          (-(halfExtents w h : (K × K) × List K).1.2) (halfExtents w h).1.2 (-1) 1) ∧
    (halfExtents 800 600 : (K × K) × List K).1 = (800 / 600, 1) := by
  constructor
  · intro s w h hw hh
    have hwK : (0 : K) < (w : K) := by exact_mod_cast hw
    have hhK : (0 : K) < (h : K) := by exact_mod_cast hh
    by_cases hlt : h < w
    · have hltK : (w : K) > (h : K) := by exact_mod_cast hlt
      have hval : (halfExtents w h : (K × K) × List K).1 = ((w : K) / (h : K), 1) := by
        simp [halfExtents, hltK]
      have hone : (1 : K) ≤ (w : K) / (h : K) := by
        rw [le_div_iff₀ hhK]
        simpa using hltK.le
      refine ⟨fun _ => hval, fun hn => absurd hlt hn, ?_, ?_, rfl⟩
      · rw [hval]
        exact min_eq_right hone
      · rw [hval]
        exact le_max_right _ _
    · have hleK : ¬ (w : K) > (h : K) := by
        intro hc
        exact hlt (by exact_mod_cast hc)
      have hval : (halfExtents w h : (K × K) × List K).1 = (1, (h : K) / (w : K)) := by
        simp [halfExtents, hleK]
      have hone : (1 : K) ≤ (h : K) / (w : K) := by
        rw [le_div_iff₀ hwK]
        simpa using not_lt.mp hleK
      refine ⟨fun hc => absurd hc hlt, fun _ => hval, ?_, ?_, rfl⟩
      · rw [hval]
        exact min_eq_left hone
      · rw [hval]
        exact le_max_left _ _
  · simp [halfExtents]
    norm_num

theorem onResize_aspect_fit_witness :
    ((0 : Nat) < 600 ∧ (0 : Nat) < 800) ∧
    min (halfExtents 600 800 : (ℚ × ℚ) × List ℚ).1.1
      (halfExtents 600 800 : (ℚ × ℚ) × List ℚ).1.2 = 1 :=
  ⟨⟨by decide, by decide⟩,
   ((onResize_aspect_fit ℚ).1 (Window.initial 600 800 0) 600 800
      (by decide) (by decide)).2.2.1⟩

/-- C5, as stated, fails: `onResize` has no guard for a zero dimension. With
`(width, height)` equal to `(0, 0)`, `(800, 0)` or `(0, 600)` the one division
the half-extent computation executes has divisor zero. -/
theorem onResize_degenerate_divisor_zero :
    ¬ (∀ d ∈ (halfExtents 0 0 : (ℚ × ℚ) × List ℚ).2, d ≠ 0) ∧
    ¬ (∀ d ∈ (halfExtents 800 0 : (ℚ × ℚ) × List ℚ).2, d ≠ 0) ∧
    ¬ (∀ d ∈ (halfExtents 0 600 : (ℚ × ℚ) × List ℚ).2, d ≠ 0) := by
  refine ⟨?_, ?_, ?_⟩
  · simp [halfExtents]
  · simp [halfExtents]
  · have h : ¬ ((600 : ℚ) < 0) := by norm_num
    simp [halfExtents, h]

/-- C5, amended: `onResize` executes exactly one division, `w / h` when
`w > h` and `h / w` otherwise, and its divisor is non-zero exactly when both
width and height are positive. -/
theorem onResize_divisor_nonzero_iff (K : Type) [LinearOrderedField K] (w h : Nat) :
    (halfExtents w h : (K × K) × List K).2 = [if h < w then (h : K) else (w : K)] ∧
    ((∀ d ∈ (halfExtents w h : (K × K) × List K).2, d ≠ 0) ↔ (0 < w ∧ 0 < h)) := by
  have hcast : ((w : K) > (h : K)) ↔ h < w := by
    constructor
    · intro hc
      exact_mod_cast hc
    · intro hc
      exact_mod_cast hc
  by_cases hlt : h < w
  · have hltK : (w : K) > (h : K) := hcast.mpr hlt
    have hval : (halfExtents w h : (K × K) × List K).2 = [(h : K)] := by
      simp [halfExtents, hltK]
    refine ⟨by simp [hval, hlt], ?_⟩
    rw [hval]
    simp only [List.mem_singleton, forall_eq, ne_eq, Nat.cast_eq_zero]
    omega
  · have hleK : ¬ (w : K) > (h : K) := fun hc => hlt (hcast.mp hc)
    have hval : (halfExtents w h : (K × K) × List K).2 = [(w : K)] := by
      simp [halfExtents, hleK]
    refine ⟨by simp [hval, hlt], ?_⟩
    rw [hval]
    simp only [List.mem_singleton, forall_eq, ne_eq, Nat.cast_eq_zero]
    omega

/-- C7, as stated, fails: `onInit` discards the result of `program_->link()`.
In a context where linking fails, `onInit` still creates the vertex array and
both buffers, looks up all five uniform locations, and performs exactly the
calls it performs when linking succeeds. -/
theorem onInit_continues_after_link_failure :
    failedLinkEnv.linkOk = false ∧
    Effect.call "vao_.create" ∈ (onInit failedLinkEnv (Window.initial 800 600 0 : Window ℚ)).2 ∧
    Effect.call "vbo_.create" ∈ (onInit failedLinkEnv (Window.initial 800 600 0 : Window ℚ)).2 ∧
    Effect.call "ibo_.create" ∈ (onInit failedLinkEnv (Window.initial 800 600 0 : Window ℚ)).2 ∧
    Effect.uniformLocation "mvp" ∈
      (onInit failedLinkEnv (Window.initial 800 600 0 : Window ℚ)).2 ∧
    Effect.uniformLocation "zoomLog" ∈
      (onInit failedLinkEnv (Window.initial 800 600 0 : Window ℚ)).2 ∧
    (onInit failedLinkEnv (Window.initial 800 600 0 : Window ℚ)).2 =
      (onInit { failedLinkEnv with linkOk := true } (Window.initial 800 600 0 : Window ℚ)).2 := by
  refine ⟨rfl, ?_, ?_, ?_, ?_, ?_, rfl⟩ <;> simp [onInit]

/-- C7, amended: `onInit` does not check whether linking succeeded. For every
answer of the context, link failure included, it performs one fixed sequence
of 32 calls (link, then creation and filling of the vertex array and buffers,
attribute setup, the five uniform lookups, releases and GL state setup,
ending with `glClear`) and stores the five looked-up locations; state and
calls are the same as when linking succeeds. -/
theorem onInit_ignores_link_result (K : Type) [LinearOrderedField K] (env : GLEnv)
    (s : Window K) :
    onInit env s = onInit { env with linkOk := true } s ∧
    onInit env s = onInit { env with linkOk := false } s ∧
    (onInit env s).2.length = 32 ∧
    (onInit env s).2.indexOf (Effect.call "program_->link") <
      (onInit env s).2.indexOf (Effect.call "vao_.create") ∧
    Effect.call "vbo_.create" ∈ (onInit env s).2 ∧
    Effect.call "ibo_.create" ∈ (onInit env s).2 ∧
    (onInit env s).2.getLast? = some (Effect.call "glClear") ∧
    (onInit env s).1 =
      { s with mvpUniform_ := env.location "mvp",
               iterationsUniform_ := env.location "iterations",
               colorUniform_ := env.location "colorMult",
               positionUniform_ := env.location "pos",
               zoomUniform_ := env.location "zoomLog" } := by
  refine ⟨rfl, rfl, rfl, ?_, ?_, ?_, ?_, rfl⟩
  · simp [onInit, List.indexOf_cons]
  · simp [onInit]
  · simp [onInit]
  · simp [onInit]

/-- C8, as stated, fails: neither `wheelEvent` nor `mouseMoveEvent` with the
button held calls `update()`; the handlers issue no call at all. -/
theorem input_handlers_issue_no_update :
    Effect.update ∉ (wheelEvent Real.exp (Window.initial 800 600 0) 120 ⟨400, 300⟩).2 ∧
    (mousePressEvent (Window.initial 800 600 0 : Window ℝ) ⟨10, 10⟩).1.isPressed_ = true ∧
    Effect.update ∉
      (mouseMoveEvent Real.exp (mousePressEvent (Window.initial 800 600 0) ⟨10, 10⟩).1
        ⟨50, 60⟩).2 := by
  refine ⟨?_, rfl, ?_⟩
  · simp [wheelEvent]
  · simp [mouseMoveEvent, mousePressEvent]

/-- C3, as stated, fails: the rate is computed in float32, not exactly. With
frameCount 64 and 1024 ms elapsed the callback stores and emits 62
(`1024/1000.0f` is `8589935 / 2^23`, the float quotient `16383999 / 2^18` is
just below 62.5), while `round(64 / (1024/1000)) = round(62.5)` is 63. -/
theorem captureMetrics_rate_not_exact :
    captureMetricsCallback { (Window.initial 800 600 0 : Window ℚ) with frameCount_ := 64 } 1024 =
      some ({ (Window.initial 800 600 0 : Window ℚ) with
                timer_ := 1024, fps := 62, frameCount_ := 0 },
            [Effect.updateUI 62]) ∧
    cround ((64 : ℚ) / ((1024 : ℚ) / 1000)) = 63 := by
  constructor
  · exact captureMetricsCallback_fire
      { (Window.initial 800 600 0 : Window ℚ) with frameCount_ := 64 } 1024 62 (by decide)
      (by
        show sampledRate 64 (1024 - 0) = 62
        norm_num [sampledRate_64_1024])
      (by norm_num)
  · unfold cround
    rw [if_pos (by norm_num), Int.floor_eq_iff]
    norm_num

/-- C3, amended (sampler correctness of the `captureMetrics` callback over a
simulated clock): with `n = frameCount_` and `e = now - timer_` the elapsed
milliseconds, if `e ≥ 1000` the callback computes `rate = round(n / (e/1000))`
in float32 (`n` and `e` converted to `float`, both divisions rounded to the
nearest float32); when that rate is below `2^64`, which it is for every
`n ≤ 2^62`, it emits exactly one `updateUI` carrying it, stores it in
`ui_.fps`, sets frameCount to 0 and restarts the timer at `now` (a rate of
`2^64` or more makes the conversion to `size_t` undefined). When `e = 1000`
and `n < 2^24` the rate is `n`, the exact `round(n / (e/1000))`. If
`e < 1000` the callback emits nothing and leaves the whole state, frameCount,
`ui_.fps` and timer included, unchanged. `n = 30, e = 1000` emits 30 and
`n = 0, e = 1000` emits 0; `n = 2^24 + 1, e = 1000` emits `2^24`. -/
theorem captureMetrics_sampler (K : Type) :
    (∀ (s : Window K) (now : Int), 1000 ≤ now - s.timer_ →
      ∃ rate : Nat,
        (rate : ℤ) = cround (f32 (f32 (s.frameCount_ : ℚ) /
          f32 (f32 ((now - s.timer_ : Int) : ℚ) / 1000))) ∧
        (rate < 2 ^ 64 →
          captureMetricsCallback s now =
            some ({ s with timer_ := now, fps := rate, frameCount_ := 0 },
                  [Effect.updateUI rate])) ∧
        (2 ^ 64 ≤ rate → captureMetricsCallback s now = none) ∧
        (s.frameCount_ ≤ 2 ^ 62 → rate ≤ 2 ^ 63)) ∧
    (∀ (s : Window K) (now : Int), now - s.timer_ = 1000 → s.frameCount_ < 2 ^ 24 →
      captureMetricsCallback s now =
        some ({ s with timer_ := now, fps := s.frameCount_, frameCount_ := 0 },
              [Effect.updateUI s.frameCount_]) ∧
      cround ((s.frameCount_ : ℚ) / (((now - s.timer_ : Int) : ℚ) / 1000)) = s.frameCount_) ∧
    (∀ (s : Window K) (now : Int), now - s.timer_ < 1000 →
      captureMetricsCallback s now = some (s, [])) ∧
    (∀ (s : Window K) (now : Int), s.frameCount_ = 30 → now - s.timer_ = 1000 →
      captureMetricsCallback s now =
        some ({ s with timer_ := now, fps := 30, frameCount_ := 0 }, [Effect.updateUI 30])) ∧
    (∀ (s : Window K) (now : Int), s.frameCount_ = 0 → now - s.timer_ = 1000 →
      captureMetricsCallback s now =
        some ({ s with timer_ := now, fps := 0, frameCount_ := 0 }, [Effect.updateUI 0])) ∧
    (∀ (s : Window K) (now : Int), s.frameCount_ = 2 ^ 24 + 1 → now - s.timer_ = 1000 →
      captureMetricsCallback s now =
        some ({ s with timer_ := now, fps := 2 ^ 24, frameCount_ := 0 },
              [Effect.updateUI (2 ^ 24)])) := by
  have exact : ∀ (s : Window K) (now : Int), now - s.timer_ = 1000 → s.frameCount_ < 2 ^ 24 →
      captureMetricsCallback s now =
        some ({ s with timer_ := now, fps := s.frameCount_, frameCount_ := 0 },
              [Effect.updateUI s.frameCount_]) := by
    intro s now he hn
    have hr : sampledRate s.frameCount_ (now - s.timer_) = (s.frameCount_ : ℤ) := by
      rw [he]
      exact sampledRate_exact _ hn
    exact captureMetricsCallback_fire s now s.frameCount_ (by omega) hr (by omega)
  refine ⟨?_, ?_, ?_, ?_, ?_, ?_⟩
  · intro s now he
    have h0 := sampledRate_nonneg s.frameCount_ (now - s.timer_) he
    have hcast : ((sampledRate s.frameCount_ (now - s.timer_)).toNat : ℤ) =
        sampledRate s.frameCount_ (now - s.timer_) := Int.toNat_of_nonneg h0
    refine ⟨(sampledRate s.frameCount_ (now - s.timer_)).toNat, ?_, ?_, ?_, ?_⟩
    · rw [hcast]
      rfl
    · intro hlt
      exact captureMetricsCallback_fire s now _ he hcast.symm hlt
    · intro hge
      exact captureMetricsCallback_overflow s now he (by omega)
    · intro hn
      have := sampledRate_le s.frameCount_ (now - s.timer_) hn he
      omega
  · intro s now he hn
    refine ⟨exact s now he hn, ?_⟩
    rw [he]
    norm_num
    exact cround_natCast _
  · intro s now he
    exact captureMetricsCallback_idle s now he
  · intro s now hn he
    have h := exact s now he (by rw [hn]; norm_num)
    rw [h, hn]
  · intro s now hn he
    have h := exact s now he (by rw [hn]; norm_num)
    rw [h, hn]
  · intro s now hn he
    have hr : sampledRate s.frameCount_ (now - s.timer_) = ((2 ^ 24 : ℕ) : ℤ) := by
      rw [hn, he]
      norm_num [sampledRate_tie]
    exact captureMetricsCallback_fire s now (2 ^ 24) (by omega) hr (by norm_num)

theorem captureMetrics_sampler_witness :
    ((1000 : Int) = 1000 - ({ (Window.initial 800 600 0 : Window ℚ) with
        frameCount_ := 30 }).timer_ ∧
      ({ (Window.initial 800 600 0 : Window ℚ) with frameCount_ := 30 }).frameCount_ < 2 ^ 24) ∧
    captureMetricsCallback { (Window.initial 800 600 0 : Window ℚ) with frameCount_ := 30 } 1000 =
      some ({ (Window.initial 800 600 0 : Window ℚ) with
                timer_ := 1000, fps := 30, frameCount_ := 0 },
            [Effect.updateUI 30]) :=
  ⟨⟨by decide, by decide⟩,
   ((captureMetrics_sampler ℚ).2.1
     { (Window.initial 800 600 0 : Window ℚ) with frameCount_ := 30 } 1000
     (by decide) (by decide)).1⟩
/-- C8, amended: `mouseMoveEvent` (button held or not) and `wheelEvent` only
mutate the view state and issue no call, hence no redraw request; the two
slider slots do call `update()` after changing a parameter. The redraw after
pointer and wheel input comes from `onRender`, which calls `update()` exactly
once per frame when `animated_` is true (and not at all otherwise).
`animated_` is true initially and no operation of the program changes it
(input handlers, `onRender`, `onResize`, `onInit`, slider slots), so in every
state the program reaches each frame requests the next one. -/
theorem redraw_requested_by_onRender (K : Type) [LinearOrderedField K] (exp : K → K) :
    (∀ (s : Window K) (pos : QPoint), (mouseMoveEvent exp s pos).2 = []) ∧
    (∀ (s : Window K) (d : Int) (pos : QPoint), (wheelEvent exp s d pos).2 = []) ∧
    (∀ (s : Window K) (value : Int), (iterationsValueChanged s value).2 = [Effect.update]) ∧
    (∀ (s : Window K) (r g b : Int), (updateColor s r g b).2 = [Effect.update]) ∧
    (∀ s : Window K,
      (onRenderBody s).2.count Effect.update = if s.animated_ then 1 else 0) ∧
    (∀ (s : Window K) (now : Int) (r : Window K × List (Effect K)),
      onRender s now = some r →
        r.2.count Effect.update = if s.animated_ then 1 else 0) ∧
    (∀ (s : Window K) (now : Int), now - s.timer_ < 1000 →
      ∃ r : Window K × List (Effect K), onRender s now = some r) ∧
    (∀ width height now : Int, (Window.initial width height now : Window K).animated_ = true) ∧
    (∀ (s : Window K) (step : Step) (s1 : Window K),
      exec exp s step = some s1 → s1.animated_ = s.animated_) ∧
    (∀ (width height now : Int) (steps : List Step) (s1 : Window K),
      execAll exp (Window.initial width height now) steps = some s1 →
        s1.animated_ = true ∧ (onRenderBody s1).2.count Effect.update = 1) := by
  refine ⟨?_, fun _ _ _ => rfl, fun _ _ => rfl, fun _ _ _ _ => rfl, onRenderBody_count, ?_,
    ?_, fun _ _ _ => rfl, exec_animated exp, ?_⟩
  · intro s pos
    unfold mouseMoveEvent
    split_ifs <;> rfl
  · intro s now r h
    unfold onRender at h
    cases hc : captureMetricsCallback (onRenderBody s).1 now with
    | none => simp [hc] at h
    | some r1 =>
      simp only [hc, Option.some.injEq] at h
      subst h
      have h0 := (captureMetricsCallback_frame _ now r1 hc).2
      rw [List.count_append, List.count_eq_zero_of_not_mem h0, Nat.add_zero]
      exact onRenderBody_count s
  · intro s now h
    have hc := captureMetricsCallback_idle (onRenderBody s).1 now h
    exact ⟨_, by unfold onRender; rw [hc]⟩
  · intro width height now steps s1 h
    have ha : s1.animated_ = true := by
      rw [execAll_animated exp steps _ s1 h]
      rfl
    exact ⟨ha, by rw [onRenderBody_count, ha]; rfl⟩

theorem redraw_requested_by_onRender_witness :
    execAll (fun x : ℚ => 1 + x) (Window.initial 800 600 0)
        [Step.input (InputEvent.wheel 120 ⟨400, 300⟩), Step.color 10 20 30] =
      some (updateColor (handle (fun x : ℚ => 1 + x) (Window.initial 800 600 0)
        (InputEvent.wheel 120 ⟨400, 300⟩)) 10 20 30).1 ∧
    (updateColor (handle (fun x : ℚ => 1 + x) (Window.initial 800 600 0)
        (InputEvent.wheel 120 ⟨400, 300⟩)) 10 20 30).1.animated_ = true :=
  ⟨rfl,
   ((redraw_requested_by_onRender ℚ (fun x : ℚ => 1 + x)).2.2.2.2.2.2.2.2.2 800 600 0
      [Step.input (InputEvent.wheel 120 ⟨400, 300⟩), Step.color 10 20 30] _ rfl).1⟩

end Mandel
